import Mathlib

/-!
Verification of the `cpython-json` conversion engine (`src/lib.rs`).

The development shallowly embeds the two conversion functions of the crate,
`to_json` (Python object to JSON value) and `from_json` (JSON value to
Python object), together with the error type `JsonError` and its
translation `to_pyerr`, and proves the specified properties about them.

Modelling decisions, recorded here once:

* A Python object (`PyObject`) is modelled as an inductive covering exactly
  the shapes the engine can observe through its cast/extract attempts:
  the `None` singleton, `bool`, arbitrary-precision `int`, `float`, `str`,
  `list`, `tuple`, `dict` (as its `items()` association list in iteration
  order), and a catch-all `other` constructor for every unrecognized type,
  carrying the data the engine can query from such an object: its type
  name, the result of `str()` (`Option`: `none` when the call raises), and
  the result of `repr()` followed by `to_string` (`Except`: the error when
  one of those raises).
* An IEEE-754 double (`F64`) is modelled abstractly as a finiteness flag
  plus an integer payload; the engine only stores doubles, compares them
  and asks `serde_json::Number::from_f64` whether they are finite, so no
  arithmetic on them is needed.
* `serde_json::Number` keeps its three variants (`PosInt`/`NegInt`/
  `Float`); `serde_json::Map` is the default `BTreeMap<String, Value>`,
  modelled as a key-sorted association list with the sorted-insert
  `mapInsert`.
* Host construction and insertion primitives (`PyList::new`,
  `PyDict::set_item` with a string key, `into_py_object`) fail only on
  host-level resource errors; they are modelled as infallible, which is
  the only idealization of the embedding.
-/

set_option maxHeartbeats 1000000

namespace CpythonJson

/-- Abstract model of an IEEE-754 double as observed by the engine: a
finiteness flag and an identity payload. The engine never computes with
doubles, it only stores them and tests finiteness. -/
structure F64 where
  isFinite : Bool
  val : Int
deriving DecidableEq

/-- A raised Python exception, as the `PyErr` struct of rust-cpython:
the exception type (by name), the payload value (a string here, since the
crate only ever builds string payloads) and the traceback. -/
structure PyErr where
  ptype : String
  pvalue : Option String
  ptraceback : Option Unit
deriving DecidableEq

/-- Model of a Python object handle, covering the shapes distinguishable
by the cast/extract attempts in `to_json`. A `dict` is its `items()`
association list in iteration order. `other` stands for any object of an
unrecognized type (e.g. a `datetime.datetime`) and carries the type name,
the result of calling `str()` on it, and the result of `repr()` chained
with `to_string`. -/
inductive PyObject where
  | none
  | bool (b : Bool)
  | int (n : Int)
  | float (f : F64)
  | str (s : String)
  | list (xs : List PyObject)
  | tuple (xs : List PyObject)
  | dict (items : List (PyObject × PyObject))
  | other (typeName : String) (strRes : Option String) (reprRes : Except PyErr String)

/-- The three numeric variants of `serde_json::Number`: an unsigned 64-bit
integer, a (negative) signed 64-bit integer, and a finite double. -/
inductive JNumber where
  | posInt (n : Nat)
  | negInt (m : Int)
  | float (f : F64)
deriving DecidableEq

/-- The `serde_json::Value` tagged union. An `object` is the association
list of a `BTreeMap<String, Value>` in its (key-sorted) iteration order. -/
inductive Value where
  | null
  | bool (b : Bool)
  | number (n : JNumber)
  | str (s : String)
  | array (xs : List Value)
  | object (m : List (String × Value))

/-- The `JsonError` enum of the crate, one constructor per variant. -/
inductive JsonError where
  | pythonError (e : PyErr)
  | serdeJsonError
  | typeError (typeName : String) (reprRes : Except PyErr String)
  | dictKeyNotString (obj : PyObject)
  | invalidFloat
  | impossibleNumber

/-- The `Number::as_u64` accessor: succeeds exactly on the unsigned
variant. -/
def asU64 : JNumber → Option Nat
  | .posInt n => some n
  | _ => Option.none

/-- The `Number::as_i64` accessor: succeeds on the signed variant, and on
the unsigned variant when the value fits in `i64`. -/
def asI64 : JNumber → Option Int
  | .posInt n => if (n : Int) < 9223372036854775808 then some (n : Int) else Option.none
  | .negInt m => some m
  | .float _ => Option.none

/-- The `Number::as_f64` accessor: succeeds on every variant, converting
integers to doubles (always finite for the 64-bit ranges). -/
def asF64 : JNumber → Option F64
  | .posInt n => some ⟨true, (n : Int)⟩
  | .negInt m => some ⟨true, m⟩
  | .float f => some f

/-- The `serde_json::Number::from_f64` constructor: succeeds exactly on
finite doubles. -/
def numberFromF64 (f : F64) : Option JNumber :=
  if f.isFinite then some (.float f) else Option.none

/-- The `From<i64>` conversion into `serde_json::Number`: negative values
become the signed variant, non-negative the unsigned one. -/
def numberFromI64 (m : Int) : JNumber :=
  if m < 0 then .negInt m else .posInt m.toNat

/-- Identity test against the `None` singleton (the `obj == py.None()`
pointer comparison). -/
def isNone : PyObject → Bool
  | .none => true
  | _ => false

/-- The `extract::<String>` attempt: succeeds exactly on text objects. -/
def extractString : PyObject → Option String
  | .str s => some s
  | _ => Option.none

/-- The `extract::<bool>` attempt (backed by a `PyBool` cast): succeeds
exactly on boolean objects. -/
def extractBool : PyObject → Option Bool
  | .bool b => some b
  | _ => Option.none

/-- The `extract::<u64>` attempt. In CPython `bool` is a subtype of `int`,
so it also succeeds on booleans (yielding 0 or 1) — this is why the
boolean extraction must be attempted first. -/
def extractU64 : PyObject → Option Nat
  | .int n => if 0 ≤ n ∧ n < 18446744073709551616 then some n.toNat else Option.none
  | .bool b => some (if b then 1 else 0)
  | _ => Option.none

/-- The `extract::<i64>` attempt; like `extract::<u64>` it also succeeds
on booleans. -/
def extractI64 : PyObject → Option Int
  | .int n =>
      if -9223372036854775808 ≤ n ∧ n < 9223372036854775808 then some n else Option.none
  | .bool b => some (if b then 1 else 0)
  | _ => Option.none

/-- The `cast_as::<PyFloat>` attempt: succeeds exactly on float objects. -/
def castFloat : PyObject → Option F64
  | .float f => some f
  | _ => Option.none

/-- Dynamic type name lookup, `obj.get_type(py).name(py)`. -/
def typeName : PyObject → String
  | .none => "NoneType"
  | .bool _ => "bool"
  | .int _ => "int"
  | .float _ => "float"
  | .str _ => "str"
  | .list _ => "list"
  | .tuple _ => "tuple"
  | .dict _ => "dict"
  | .other tn _ _ => tn

/-- The `str()` coercion (`key_obj.str(py)` chained with `to_string`),
`Option.none` when the call raises. Scalar renderings follow CPython;
container renderings are abstracted to a tag (they are never observed by
the claims: in CPython a `list`/`dict` is unhashable and cannot be a
`dict` key, which is the only place the engine calls `str()`). -/
def pyStr : PyObject → Option String
  | .none => some "None"
  | .bool b => some (if b then "True" else "False")
  | .int n => some (toString n)
  | .float f => some (if f.isFinite then toString f.val else "inf")
  | .str s => some s
  | .list _ => some "<list>"
  | .tuple _ => some "<tuple>"
  | .dict _ => some "<dict>"
  | .other _ sr _ => sr

/-- The `repr()` rendering chained with `to_string`
(`obj.repr(py).and_then(to_string)`). Only the `other` case and the
out-of-64-bit-range `int` case are ever reached by `to_json`; the
remaining renderings follow CPython where simple and are otherwise
abstracted. -/
def pyRepr : PyObject → Except PyErr String
  | .none => .ok "None"
  | .bool b => .ok (if b then "True" else "False")
  | .int n => .ok (toString n)
  | .float f => .ok (if f.isFinite then toString f.val else "inf")
  | .str s => .ok s
  | .list _ => .ok "<list>"
  | .tuple _ => .ok "<tuple>"
  | .dict _ => .ok "<dict>"
  | .other _ _ r => r

/-- Strict lexicographic order on codepoint lists, the order under which
a `BTreeMap<String, Value>` keeps its keys (UTF-8 byte order and
codepoint order coincide). -/
def charListLtB : List Char → List Char → Bool
  | [], [] => false
  | [], _ :: _ => true
  | _ :: _, [] => false
  | a :: as, b :: bs =>
      if a.val.toNat < b.val.toNat then true
      else if b.val.toNat < a.val.toNat then false
      else charListLtB as bs

/-- The `Ord`-order of Rust `String` keys in a `BTreeMap`. -/
def strLtB (a b : String) : Bool := charListLtB a.data b.data

/-- Insertion into the default `serde_json::Map` (a
`BTreeMap<String, Value>`), modelled on its key-sorted association list:
insert in key order, replacing the value when the key is already
present. -/
def mapInsert (k : String) (v : Value) : List (String × Value) → List (String × Value)
  | [] => [(k, v)]
  | (k', v') :: rest =>
      if strLtB k k' then (k, v) :: (k', v') :: rest
      else if k = k' then (k, v) :: rest
      else (k', v') :: mapInsert k v rest

/-- Python equality (the `==` used by `dict` key lookup), modelled for the
key shapes that can reach `dictSetItem` in this development; note that in
CPython `True == 1`. Containers and `other` objects compare unequal here
(only string keys are ever inserted by `from_json`). -/
def pyEqB : PyObject → PyObject → Bool
  | .none, .none => true
  | .bool a, .bool b => a == b
  | .bool a, .int b => (if a then (1 : Int) else 0) == b
  | .int a, .bool b => a == (if b then (1 : Int) else 0)
  | .int a, .int b => a == b
  | .str a, .str b => a == b
  | _, _ => false

/-- CPython `dict` insertion (`dict.set_item`): if an equal key is
present, its value is replaced (the stored key object and its position
are kept); otherwise the pair is appended, preserving insertion order.
In the source this call is fallible only through host-level resource
errors, modelled as infallible. -/
def dictSetItem (d : List (PyObject × PyObject)) (k : PyObject) (v : PyObject) :
    List (PyObject × PyObject) :=
  match d with
  | [] => [(k, v)]
  | (k', v') :: rest =>
      if pyEqB k k' then (k', v) :: rest
      else (k', v') :: dictSetItem rest k v

/-- The dict-key coercion of `to_json`, in source order: the `None`
singleton becomes the text "null", a boolean becomes "true"/"false", any
other key is coerced by `str()`, and a key whose `str()` call fails makes
the conversion fail with `DictKeyNotString`. -/
def coerceKey (keyObj : PyObject) : Except JsonError String :=
  if isNone keyObj then .ok "null"
  else
    match extractBool keyObj with
    | some val => .ok (if val then "true" else "false")
    | Option.none =>
        match pyStr keyObj with
        | some s => .ok s
        | Option.none => .error (.dictKeyNotString keyObj)

/-- The scalar tail of the ordered dispatch chain of `to_json`, after the
three container casts have failed, in exact source order: text, boolean,
float (finite or `InvalidFloat`), unsigned 64-bit integer, signed 64-bit
integer, the `None` singleton, and finally the `TypeError` fallback
carrying the dynamic type name and the best-effort `repr()`. -/
def toJsonScalar (obj : PyObject) : Except JsonError Value :=
  match extractString obj with
  | some s => .ok (.str s)
  | Option.none =>
  match extractBool obj with
  | some b => .ok (.bool b)
  | Option.none =>
  match castFloat obj with
  | some f =>
      (match numberFromF64 f with
       | some n => .ok (.number n)
       | Option.none => .error .invalidFloat)
  | Option.none =>
  match extractU64 obj with
  | some n => .ok (.number (.posInt n))
  | Option.none =>
  match extractI64 obj with
  | some m => .ok (.number (numberFromI64 m))
  | Option.none =>
  if isNone obj then .ok .null
  else .error (.typeError (typeName obj) (pyRepr obj))

mutual

/-- The `to_json` encoder: the ordered, first-match-wins dispatch of the
source, with the three container casts (`PyDict`, `PyList`, `PyTuple`)
first and the scalar chain (`toJsonScalar`) as the fallthrough. -/
def to_json : PyObject → Except JsonError Value
  | .dict items => do
      let m ← toJsonDictLoop items []
      pure (Value.object m)
  | .list xs => do
      let vs ← toJsonElems xs
      pure (Value.array vs)
  | .tuple xs => do
      let vs ← toJsonElems xs
      pure (Value.array vs)
  | obj => toJsonScalar obj

/-- The element loop shared by the `PyList` and `PyTuple` branches of
`to_json` (`iter().map(to_json).collect()`): encode in order, aborting on
the first failure. -/
def toJsonElems : List PyObject → Except JsonError (List Value)
  | [] => pure []
  | x :: rest => do
      let v ← to_json x
      let vs ← toJsonElems rest
      pure (v :: vs)

/-- The `PyDict` branch loop of `to_json`: for each `items()` pair in
iteration order, coerce the key, encode the value, insert into the map;
the first failure aborts the whole conversion. -/
def toJsonDictLoop :
    List (PyObject × PyObject) → List (String × Value) →
    Except JsonError (List (String × Value))
  | [], acc => pure acc
  | (keyObj, value) :: rest, acc => do
      let key ← coerceKey keyObj
      let v ← to_json value
      toJsonDictLoop rest (mapInsert key v acc)

end

mutual

/-- The `from_json` decoder: structural match on the JSON value, one case
per variant, as in the source. For a `Number` the accessors are tried in
order `as_u64`, `as_i64`, `as_f64`, with the defensive
`ImpossibleNumber` error when all three fail. -/
def from_json : Value → Except JsonError PyObject
  | .number x =>
      match asU64 x with
      | some n => pure (PyObject.int (n : Int))
      | Option.none =>
      match asI64 x with
      | some n => pure (PyObject.int n)
      | Option.none =>
      match asF64 x with
      | some f => pure (PyObject.float f)
      | Option.none => .error JsonError.impossibleNumber
  | .str x => pure (PyObject.str x)
  | .bool x => pure (PyObject.bool x)
  | .array vec => do
      let elements ← fromJsonElems vec
      pure (PyObject.list elements)
  | .object m => do
      let d ← fromJsonObjLoop m []
      pure (PyObject.dict d)
  | .null => pure PyObject.none

/-- The `Array` branch loop of `from_json`: decode each element in
original order, aborting on the first failure, then build the list. -/
def fromJsonElems : List Value → Except JsonError (List PyObject)
  | [] => pure []
  | item :: rest => do
      let o ← from_json item
      let os ← fromJsonElems rest
      pure (o :: os)

/-- The `Object` branch loop of `from_json`: decode each value in map
iteration order and insert it under its (string) key, aborting on the
first failure. -/
def fromJsonObjLoop :
    List (String × Value) → List (PyObject × PyObject) →
    Except JsonError (List (PyObject × PyObject))
  | [], d => pure d
  | (key, value) :: rest, d => do
      let o ← from_json value
      fromJsonObjLoop rest (dictSetItem d (PyObject.str key) o)

end

/-- The `JsonError::to_pyerr` translation, one case per variant as in the
source; a `TypeError` whose carried `repr` itself failed is translated to
that secondary Python error. -/
def JsonError.to_pyerr : JsonError → PyErr
  | .pythonError e => e
  | .serdeJsonError => ⟨"RuntimeError", some "serde_json error", Option.none⟩
  | .typeError _ (.ok r) =>
      ⟨"TypeError", some (r ++ " is not JSON serializable"), Option.none⟩
  | .typeError _ (.error e) => e
  | .dictKeyNotString _ => ⟨"TypeError", some "keys must be a string", Option.none⟩
  | .invalidFloat =>
      ⟨"ValueError", some "inf and nan are not supported in JSON", Option.none⟩
  | .impossibleNumber =>
      ⟨"ValueError", some "a value was somehow not an integer or float", Option.none⟩

/-- All keys of an association list are strictly above `k` in the key
order. -/
def keyLtAllB (k : String) (l : List (String × Value)) : Bool :=
  l.all fun p => strLtB k p.1

mutual

/-- Well-formedness of a `serde_json::Value` as produced by the real
`serde_json` library, together with the finiteness restriction of the
round-trip claim: an unsigned number fits in 64 bits, a signed number is
negative and fits in signed 64 bits (the `From<i64>` constructor only
builds the signed variant for negatives), a float is finite
(`Number::from_f64` rejects the rest), and an object iterates its keys
strictly sorted and pairwise distinct (it is a `BTreeMap`). -/
def valueWf : Value → Bool
  | .null => true
  | .bool _ => true
  | .str _ => true
  | .number (.posInt n) => decide (n < 18446744073709551616)
  | .number (.negInt m) => decide (-9223372036854775808 ≤ m ∧ m < 0)
  | .number (.float f) => f.isFinite
  | .array xs => valueListWf xs
  | .object m => objWf m

/-- Well-formedness of every element of an array. -/
def valueListWf : List Value → Bool
  | [] => true
  | x :: rest => valueWf x && valueListWf rest

/-- Well-formedness of an object's association list: keys strictly
sorted, values well-formed. -/
def objWf : List (String × Value) → Bool
  | [] => true
  | (k, v) :: rest => keyLtAllB k rest && valueWf v && objWf rest

end

mutual

/-- Every float number occurring anywhere in a JSON value is finite. -/
def floatsFinite : Value → Bool
  | .number (.float f) => f.isFinite
  | .array xs => floatsFiniteList xs
  | .object m => floatsFiniteObj m
  | _ => true

/-- `floatsFinite` over the elements of an array. -/
def floatsFiniteList : List Value → Bool
  | [] => true
  | x :: rest => floatsFinite x && floatsFiniteList rest

/-- `floatsFinite` over the values of an object. -/
def floatsFiniteObj : List (String × Value) → Bool
  | [] => true
  | (_, v) :: rest => floatsFinite v && floatsFiniteObj rest

end

/-- The key kinds singled out by the mapping claims: the `None`
singleton, booleans, and text. -/
def keyKindOk : PyObject → Bool
  | .none => true
  | .bool _ => true
  | .str _ => true
  | _ => false

/-- The text a key coerces to when its coercion succeeds (and the empty
string otherwise, a case the theorems never rely on). -/
def coercedText (k : PyObject) : String :=
  match coerceKey k with
  | .ok s => s
  | .error _ => ""

/-- Sortedness of a map's association list: keys pairwise strictly
increasing in the key order. -/
def mapSorted (l : List (String × Value)) : Prop :=
  l.Pairwise fun a b => strLtB a.1 b.1 = true

/-- Unfolding of the codepoint-list order on two cons cells. -/
theorem charListLtB_cons (x y : Char) (xs ys : List Char) :
    charListLtB (x :: xs) (y :: ys) = true ↔
      x.val.toNat < y.val.toNat ∨
        (x.val.toNat = y.val.toNat ∧ charListLtB xs ys = true) := by
  simp only [charListLtB]
  by_cases h1 : x.val.toNat < y.val.toNat
  · simp [h1]
  · by_cases h2 : y.val.toNat < x.val.toNat
    · rw [if_neg h1, if_pos h2]
      simp only [Bool.false_eq_true, false_iff]
      intro h
      rcases h with h | ⟨he, _⟩ <;> omega
    · have hxy : x.val.toNat = y.val.toNat := by omega
      simp [h1, h2, hxy]

/-- The codepoint-list order is irreflexive. -/
theorem charListLtB_irrefl : ∀ l : List Char, charListLtB l l = false
  | [] => rfl
  | a :: as => by
      have ih := charListLtB_irrefl as
      rw [Bool.eq_false_iff]
      intro h
      rw [charListLtB_cons] at h
      rcases h with h | ⟨-, h⟩
      · omega
      · rw [ih] at h; cases h

/-- The codepoint-list order is transitive. -/
theorem charListLtB_trans : ∀ a b c : List Char,
    charListLtB a b = true → charListLtB b c = true → charListLtB a c = true
  | a, [], _, h1, _ => by
      cases a with
      | nil => simp [charListLtB] at h1
      | cons x xs => simp [charListLtB] at h1
  | _, _ :: _, [], _, h2 => by simp [charListLtB] at h2
  | [], _ :: _, _ :: _, _, _ => by simp [charListLtB]
  | x :: xs, y :: ys, z :: zs, h1, h2 => by
      rw [charListLtB_cons] at h1 h2 ⊢
      rcases h1 with h1 | ⟨h1e, h1r⟩
      · rcases h2 with h2 | ⟨h2e, _⟩
        · exact Or.inl (by omega)
        · exact Or.inl (by omega)
      · rcases h2 with h2 | ⟨h2e, h2r⟩
        · exact Or.inl (by omega)
        · exact Or.inr ⟨by omega, charListLtB_trans xs ys zs h1r h2r⟩

/-- Two codepoint lists that are not ordered either way are equal. -/
theorem charListLtB_total : ∀ a b : List Char,
    charListLtB a b = false → charListLtB b a = false → a = b
  | [], [], _, _ => rfl
  | [], _ :: _, h1, _ => by simp [charListLtB] at h1
  | _ :: _, [], _, h2 => by simp [charListLtB] at h2
  | x :: xs, y :: ys, h1, h2 => by
      have h1' : ¬ (charListLtB (x :: xs) (y :: ys) = true) := by simp [h1]
      have h2' : ¬ (charListLtB (y :: ys) (x :: xs) = true) := by simp [h2]
      rw [charListLtB_cons] at h1' h2'
      push_neg at h1' h2'
      have hxy : x.val.toNat = y.val.toNat := by
        have := h1'.1
        have := h2'.1
        omega
      have hx : x = y := Char.ext (UInt32.toNat.inj hxy)
      have hxs : charListLtB xs ys = false := by
        have := h1'.2 hxy
        simpa using this
      have hys : charListLtB ys xs = false := by
        have := h2'.2 hxy.symm
        simpa using this
      have hrest : xs = ys := charListLtB_total xs ys hxs hys
      rw [hx, hrest]

/-- The key order is irreflexive. -/
theorem strLtB_irrefl (s : String) : strLtB s s = false :=
  charListLtB_irrefl s.data

/-- The key order is transitive. -/
theorem strLtB_trans {a b c : String} (h1 : strLtB a b = true) (h2 : strLtB b c = true) :
    strLtB a c = true :=
  charListLtB_trans a.data b.data c.data h1 h2

/-- The key order is asymmetric. -/
theorem strLtB_asymm {a b : String} (h : strLtB a b = true) : strLtB b a = false := by
  by_contra hc
  rw [Bool.not_eq_false] at hc
  have := strLtB_trans h hc
  rw [strLtB_irrefl a] at this
  cases this

/-- Two keys that are not ordered either way are equal. -/
theorem strLtB_total {a b : String} (h1 : strLtB a b = false) (h2 : strLtB b a = false) :
    a = b :=
  String.ext (charListLtB_total a.data b.data h1 h2)

/-- A key strictly below another is distinct from it. -/
theorem strLtB_ne {a b : String} (h : strLtB a b = true) : a ≠ b := by
  intro he
  rw [he, strLtB_irrefl] at h
  cases h

/-- Anything in the result of a map insertion is the inserted pair or was
already present. -/
theorem mapInsert_mem_sub {k : String} {v : Value} :
    ∀ {l : List (String × Value)} {p : String × Value},
      p ∈ mapInsert k v l → p = (k, v) ∨ p ∈ l := by
  intro l
  induction l with
  | nil =>
      intro p hp
      simp [mapInsert] at hp
      exact Or.inl hp
  | cons q rest ih =>
      intro p hp
      obtain ⟨k', v'⟩ := q
      simp only [mapInsert] at hp
      by_cases h1 : strLtB k k' = true
      · rw [if_pos h1] at hp
        rcases List.mem_cons.mp hp with h | h
        · exact Or.inl h
        · exact Or.inr h
      · rw [if_neg h1] at hp
        by_cases h2 : k = k'
        · rw [if_pos h2] at hp
          rcases List.mem_cons.mp hp with h | h
          · exact Or.inl h
          · exact Or.inr (List.mem_cons_of_mem _ h)
        · rw [if_neg h2] at hp
          rcases List.mem_cons.mp hp with h | h
          · exact Or.inr (by simp [h])
          · rcases ih h with h' | h'
            · exact Or.inl h'
            · exact Or.inr (List.mem_cons_of_mem _ h')

/-- Map insertion preserves key-sortedness. -/
theorem mapInsert_sorted {k : String} {v : Value} :
    ∀ {l : List (String × Value)}, mapSorted l → mapSorted (mapInsert k v l) := by
  intro l
  induction l with
  | nil => intro _; simp [mapInsert, mapSorted]
  | cons q rest ih =>
      intro hs
      obtain ⟨k', v'⟩ := q
      simp only [mapSorted, List.pairwise_cons] at hs
      obtain ⟨hhead, hrest⟩ := hs
      simp only [mapInsert]
      by_cases h1 : strLtB k k' = true
      · rw [if_pos h1]
        simp only [mapSorted, List.pairwise_cons]
        refine ⟨?_, hhead, hrest⟩
        intro b hb
        rcases List.mem_cons.mp hb with h | h
        · rw [h]; exact h1
        · exact strLtB_trans h1 (hhead b h)
      · rw [if_neg h1]
        by_cases h2 : k = k'
        · rw [if_pos h2]
          simp only [mapSorted, List.pairwise_cons]
          exact ⟨fun b hb => h2 ▸ hhead b hb, hrest⟩
        · rw [if_neg h2]
          have hk'k : strLtB k' k = true := by
            have h1f : strLtB k k' = false := Bool.eq_false_iff.mpr h1
            by_contra hb
            have hbf : strLtB k' k = false := Bool.eq_false_iff.mpr hb
            exact h2 (strLtB_total h1f hbf)
          simp only [mapSorted, List.pairwise_cons]
          constructor
          · intro b hb
            rcases mapInsert_mem_sub hb with h | h
            · rw [h]; exact hk'k
            · exact hhead b h
          · exact ih hrest

/-- Membership in a sorted map after an insertion: the inserted pair, or
an old pair under a different key. -/
theorem mapInsert_mem_iff {k : String} {v : Value} :
    ∀ {l : List (String × Value)}, mapSorted l → ∀ {s : String} {w : Value},
      ((s, w) ∈ mapInsert k v l ↔ (s = k ∧ w = v) ∨ ((s, w) ∈ l ∧ s ≠ k)) := by
  intro l
  induction l with
  | nil =>
      intro _ s w
      simp [mapInsert, Prod.ext_iff]
  | cons q rest ih =>
      intro hs s w
      obtain ⟨k', v'⟩ := q
      simp only [mapSorted, List.pairwise_cons] at hs
      obtain ⟨hhead, hrest⟩ := hs
      simp only [mapInsert]
      by_cases h1 : strLtB k k' = true
      · rw [if_pos h1]
        constructor
        · intro hp
          rcases List.mem_cons.mp hp with h | h
          · cases h
            exact Or.inl ⟨rfl, rfl⟩
          · refine Or.inr ⟨h, ?_⟩
            rcases List.mem_cons.mp h with h' | h'
            · cases h'
              exact (strLtB_ne h1).symm
            · have hk's : strLtB k' s = true := hhead (s, w) h'
              exact (strLtB_ne (strLtB_trans h1 hk's)).symm
        · intro hp
          rcases hp with ⟨rfl, rfl⟩ | ⟨hmem, hne⟩
          · exact List.mem_cons_self _ _
          · exact List.mem_cons_of_mem _ hmem
      · rw [if_neg h1]
        by_cases h2 : k = k'
        · rw [if_pos h2]
          subst h2
          constructor
          · intro hp
            rcases List.mem_cons.mp hp with h | h
            · cases h
              exact Or.inl ⟨rfl, rfl⟩
            · refine Or.inr ⟨List.mem_cons_of_mem _ h, ?_⟩
              have hks : strLtB k s = true := hhead (s, w) h
              exact (strLtB_ne hks).symm
          · intro hp
            rcases hp with ⟨rfl, rfl⟩ | ⟨hmem, hne⟩
            · exact List.mem_cons_self _ _
            · rcases List.mem_cons.mp hmem with h | h
              · cases h
                exact absurd rfl hne
              · exact List.mem_cons_of_mem _ h
        · rw [if_neg h2]
          constructor
          · intro hp
            rcases List.mem_cons.mp hp with h | h
            · cases h
              exact Or.inr ⟨List.mem_cons_self _ _, fun he => h2 he.symm⟩
            · rcases (ih hrest).mp h with ⟨rfl, rfl⟩ | ⟨hmem, hne⟩
              · exact Or.inl ⟨rfl, rfl⟩
              · exact Or.inr ⟨List.mem_cons_of_mem _ hmem, hne⟩
          · intro hp
            rcases hp with ⟨rfl, rfl⟩ | ⟨hmem, hne⟩
            · exact List.mem_cons_of_mem _ ((ih hrest).mpr (Or.inl ⟨rfl, rfl⟩))
            · rcases List.mem_cons.mp hmem with h | h
              · cases h
                exact List.mem_cons_self _ _
              · exact List.mem_cons_of_mem _ ((ih hrest).mpr (Or.inr ⟨h, hne⟩))

/-- Inserting a key above every key of a sorted map appends the pair. -/
theorem mapInsert_append (k : String) (v : Value) :
    ∀ acc : List (String × Value), (∀ p ∈ acc, strLtB p.1 k = true) →
      mapInsert k v acc = acc ++ [(k, v)] := by
  intro acc
  induction acc with
  | nil => intro _; rfl
  | cons q rest ih =>
      intro h
      obtain ⟨k', v'⟩ := q
      have hk' : strLtB k' k = true := h (k', v') (List.mem_cons_self _ _)
      simp only [mapInsert]
      rw [if_neg (by simp [strLtB_asymm hk']), if_neg (Ne.symm (strLtB_ne hk'))]
      rw [ih fun p hp => h p (List.mem_cons_of_mem _ hp)]
      simp

/-- On the key kinds of the mapping claims, the key coercion succeeds
with the coerced text. -/
theorem coerceKey_kindOk {k : PyObject} (h : keyKindOk k = true) :
    coerceKey k = .ok (coercedText k) := by
  cases k with
  | none => rfl
  | bool b => rfl
  | str s => rfl
  | int n => exact Bool.noConfusion h
  | float f => exact Bool.noConfusion h
  | list xs => exact Bool.noConfusion h
  | tuple xs => exact Bool.noConfusion h
  | dict items => exact Bool.noConfusion h
  | other tn sr r => exact Bool.noConfusion h

@[simp]
theorem except_bind_ok {α β ε : Type} (a : α) (f : α → Except ε β) :
    (Except.ok a >>= f : Except ε β) = f a := rfl

@[simp]
theorem except_bind_error {α β ε : Type} (e : ε) (f : α → Except ε β) :
    (Except.error e >>= f : Except ε β) = Except.error e := rfl

@[simp]
theorem except_pure_eq_ok {α ε : Type} (a : α) : (pure a : Except ε α) = Except.ok a := rfl

theorem to_json_int_eq (n : Int) : to_json (PyObject.int n) = toJsonScalar (PyObject.int n) := rfl

theorem to_json_float_eq (f : F64) :
    to_json (PyObject.float f) = toJsonScalar (PyObject.float f) := rfl

theorem to_json_other_eq (tn : String) (sr : Option String) (r : Except PyErr String) :
    to_json (PyObject.other tn sr r) = toJsonScalar (PyObject.other tn sr r) := rfl

/-- C2: encoding a native boolean yields the JSON boolean, never a
number, even though the host would happily extract a boolean as an
integer — the boolean attempt precedes the integer attempts in the
dispatch chain. -/
theorem claim_C2 (b : Bool) :
    to_json (PyObject.bool b) = .ok (Value.bool b) ∧
    (extractU64 (PyObject.bool b)).isSome = true ∧
    ∀ jn : JNumber, to_json (PyObject.bool b) ≠ .ok (Value.number jn) := by
  have h1 : to_json (PyObject.bool b) = .ok (Value.bool b) := by cases b <;> rfl
  refine ⟨h1, rfl, ?_⟩
  intro jn h
  rw [h1] at h
  exact absurd (Except.ok.inj h) (by simp)

/-- C6: a native integer in unsigned 64-bit range encodes to the
unsigned-subkind number (the unsigned extraction is attempted first), a
negative integer in signed 64-bit range to the signed subkind. -/
theorem claim_C6 :
    (∀ n : Int, 0 ≤ n → n < 18446744073709551616 →
        to_json (PyObject.int n) = .ok (Value.number (JNumber.posInt n.toNat))) ∧
    (∀ m : Int, -9223372036854775808 ≤ m → m < 0 →
        to_json (PyObject.int m) = .ok (Value.number (JNumber.negInt m))) := by
  constructor
  · intro n h1 h2
    rw [to_json_int_eq]
    simp only [toJsonScalar, extractString, extractBool, castFloat, extractU64]
    rw [if_pos ⟨h1, h2⟩]
  · intro m h1 h2
    rw [to_json_int_eq]
    simp only [toJsonScalar, extractString, extractBool, castFloat, extractU64, extractI64]
    rw [if_neg (by omega), if_pos ⟨h1, by omega⟩]
    simp only [numberFromI64, if_pos h2]

theorem claim_C6_witness :
    (0 ≤ (5 : Int) ∧ (5 : Int) < 18446744073709551616 ∧
      to_json (PyObject.int 5) = .ok (Value.number (JNumber.posInt 5))) ∧
    (-9223372036854775808 ≤ (-5 : Int) ∧ (-5 : Int) < 0 ∧
      to_json (PyObject.int (-5)) = .ok (Value.number (JNumber.negInt (-5)))) :=
  ⟨⟨by decide, by decide, claim_C6.1 5 (by decide) (by decide)⟩,
   ⟨by decide, by decide, claim_C6.2 (-5) (by decide) (by decide)⟩⟩

/-- C7: an unrecognized native type encodes to the `TypeError` failure
carrying its type name and best-effort representation; translating that
failure yields a Python `TypeError` with exactly the message
"repr is not JSON serializable" when the representation was obtained, and
substitutes the secondary Python error when obtaining it failed. -/
theorem claim_C7 :
    (∀ (tn : String) (sr : Option String) (r : Except PyErr String),
        to_json (PyObject.other tn sr r) = .error (.typeError tn r)) ∧
    (∀ tn s : String,
        (JsonError.typeError tn (.ok s)).to_pyerr =
          ⟨"TypeError", some (s ++ " is not JSON serializable"), Option.none⟩) ∧
    (∀ (tn : String) (e : PyErr), (JsonError.typeError tn (.error e)).to_pyerr = e) :=
  ⟨fun _ _ _ => rfl, fun _ _ => rfl, fun _ _ => rfl⟩

/-- C3 claims that the mapping with the single entry key 1, value "x"
fails with the key failure; in fact the key coercion falls back to the
generic str() call, which succeeds on integers, so the encoding succeeds
with the key "1". -/
theorem claim_C3_counterexample :
    to_json (PyObject.dict [(PyObject.int 1, PyObject.str "x")]) =
      .ok (Value.object [("1", Value.str "x")]) := rfl

/-- C3 amended: a mapping with an integer key succeeds, the key coerced
to its decimal text; the `DictKeyNotString` failure arises exactly for a
key that is not the `None` singleton, not a boolean, and whose str()
coercion itself fails. -/
theorem claim_C3_amended :
    (∀ (n : Int) (val : PyObject) (w : Value), to_json val = .ok w →
        to_json (PyObject.dict [(PyObject.int n, val)]) =
          .ok (Value.object [(toString n, w)])) ∧
    (∀ k : PyObject, isNone k = false → extractBool k = Option.none →
        pyStr k = Option.none → coerceKey k = .error (.dictKeyNotString k)) := by
  constructor
  · intro n val w h
    have hk : coerceKey (PyObject.int n) = .ok (toString n) := rfl
    simp [to_json, toJsonDictLoop, hk, h, mapInsert]
  · intro k h1 h2 h3
    simp [coerceKey, h1, h2, h3]

theorem claim_C3_amended_witness :
    (to_json (PyObject.str "x") = .ok (Value.str "x") ∧
      to_json (PyObject.dict [(PyObject.int 1, PyObject.str "x")]) =
        .ok (Value.object [("1", Value.str "x")])) ∧
    (isNone (PyObject.other "A" Option.none (.ok "r")) = false ∧
      extractBool (PyObject.other "A" Option.none (.ok "r")) = Option.none ∧
      pyStr (PyObject.other "A" Option.none (.ok "r")) = Option.none ∧
      coerceKey (PyObject.other "A" Option.none (.ok "r")) =
        .error (.dictKeyNotString (PyObject.other "A" Option.none (.ok "r")))) :=
  ⟨⟨rfl, claim_C3_amended.1 1 (PyObject.str "x") (Value.str "x") rfl⟩,
   ⟨rfl, rfl, rfl, claim_C3_amended.2 _ rfl rfl rfl⟩⟩

/-- C10: two distinct mapping keys with the same text coercion do not
make the encoding fail; the object ends up with a single entry under
that text whose value is the encoding of the entry the iteration yields
last. -/
theorem claim_C10 (k1 k2 v1 v2 : PyObject) (s : String) (w1 w2 : Value)
    (hk1 : coerceKey k1 = .ok s) (hk2 : coerceKey k2 = .ok s)
    (hv1 : to_json v1 = .ok w1) (hv2 : to_json v2 = .ok w2) :
    to_json (PyObject.dict [(k1, v1), (k2, v2)]) = .ok (Value.object [(s, w2)]) := by
  simp [to_json, toJsonDictLoop, hk1, hk2, hv1, hv2, mapInsert, strLtB_irrefl]

theorem claim_C10_witness :
    coerceKey (PyObject.bool true) = .ok "true" ∧
    coerceKey (PyObject.str "true") = .ok "true" ∧
    to_json (PyObject.int 5) = .ok (Value.number (JNumber.posInt 5)) ∧
    to_json (PyObject.int 6) = .ok (Value.number (JNumber.posInt 6)) ∧
    to_json (PyObject.dict [(PyObject.bool true, PyObject.int 5),
                            (PyObject.str "true", PyObject.int 6)]) =
      .ok (Value.object [("true", Value.number (JNumber.posInt 6))]) :=
  ⟨rfl, rfl, rfl, rfl,
   claim_C10 (PyObject.bool true) (PyObject.str "true") (PyObject.int 5) (PyObject.int 6)
     "true" (Value.number (JNumber.posInt 5)) (Value.number (JNumber.posInt 6))
     rfl rfl rfl rfl⟩

/-- The array loop of the decoder succeeds when every element decodes. -/
theorem fromJsonElems_total (xs : List Value)
    (ih : ∀ x ∈ xs, ∃ o, from_json x = .ok o) :
    ∃ os, fromJsonElems xs = .ok os := by
  induction xs with
  | nil => exact ⟨[], rfl⟩
  | cons x rest ihr =>
      obtain ⟨o, ho⟩ := ih x (by simp)
      obtain ⟨os, hos⟩ := ihr fun y hy => ih y (by simp [hy])
      exact ⟨o :: os, by simp [fromJsonElems, ho, hos]⟩

/-- The object loop of the decoder succeeds when every value decodes. -/
theorem fromJsonObjLoop_total (m : List (String × Value))
    (ih : ∀ p ∈ m, ∃ o, from_json p.2 = .ok o) :
    ∀ d, ∃ d', fromJsonObjLoop m d = .ok d' := by
  induction m with
  | nil => exact fun d => ⟨d, rfl⟩
  | cons p rest ihr =>
      intro d
      obtain ⟨o, ho⟩ := ih p (by simp)
      obtain ⟨d', hd'⟩ := ihr (fun q hq => ih q (by simp [hq]))
        (dictSetItem d (PyObject.str p.1) o)
      refine ⟨d', ?_⟩
      cases p with
      | mk key value => simpa [fromJsonObjLoop, ho] using hd'

/-- The decoder is total: with the host construction and insertion
primitives idealized as infallible, no JSON value makes it fail. -/
theorem from_json_total (v : Value) : ∃ o, from_json v = .ok o := by
  match v with
  | .null => exact ⟨_, rfl⟩
  | .bool b => exact ⟨_, rfl⟩
  | .str s => exact ⟨_, rfl⟩
  | .number x =>
      cases x with
      | posInt n => exact ⟨_, rfl⟩
      | negInt m => exact ⟨_, rfl⟩
      | float f => exact ⟨_, rfl⟩
  | .array xs =>
      obtain ⟨os, hos⟩ := fromJsonElems_total xs fun x hx => from_json_total x
      exact ⟨PyObject.list os, by simp [from_json, hos]⟩
  | .object m =>
      obtain ⟨d', hd'⟩ := (fromJsonObjLoop_total m fun p hp => from_json_total p.2) []
      exact ⟨PyObject.dict d', by simp [from_json, hd']⟩
termination_by sizeOf v
decreasing_by
  · have := List.sizeOf_lt_of_mem hx
    simp only [Value.array.sizeOf_spec]
    omega
  · have h1 := List.sizeOf_lt_of_mem hp
    have h2 : sizeOf p.2 < sizeOf p := by
      cases p with
      | mk a b => simp
    simp only [Value.object.sizeOf_spec]
    omega

/-- C9: no structural failure arises in the decoder — every JSON value
decodes (so in particular the defensive ImpossibleNumber branch is
unreachable): one of the three numeric accessors always succeeds. -/
theorem claim_C9 :
    (∀ v : Value, ∃ o, from_json v = .ok o) ∧
    (∀ v : Value, from_json v ≠ .error JsonError.impossibleNumber) := by
  refine ⟨from_json_total, fun v h => ?_⟩
  obtain ⟨o, ho⟩ := from_json_total v
  rw [ho] at h
  exact absurd h (by simp)

/-- The encoder element loop propagates the first failure unchanged. -/
theorem toJsonElems_error (pre : List PyObject) (x : PyObject) (post : List PyObject)
    (e : JsonError) (hpre : ∀ y ∈ pre, ∃ v, to_json y = .ok v) (hx : to_json x = .error e) :
    toJsonElems (pre ++ x :: post) = .error e := by
  induction pre with
  | nil => simp [toJsonElems, hx]
  | cons y pre' ih =>
      obtain ⟨v, hv⟩ := hpre y (by simp)
      have hrest := ih fun z hz => hpre z (by simp [hz])
      simp [toJsonElems, hv, hrest]

/-- The encoder dict loop propagates the first failure (a failing key
coercion or a failing value encoding) unchanged, whatever the
accumulated map. -/
theorem toJsonDictLoop_error (pre : List (PyObject × PyObject)) (p : PyObject × PyObject)
    (post : List (PyObject × PyObject)) (e : JsonError)
    (hpre : ∀ q ∈ pre, ∃ s w, coerceKey q.1 = .ok s ∧ to_json q.2 = .ok w)
    (hp : coerceKey p.1 = .error e ∨ (∃ s, coerceKey p.1 = .ok s ∧ to_json p.2 = .error e)) :
    ∀ acc, toJsonDictLoop (pre ++ p :: post) acc = .error e := by
  induction pre with
  | nil =>
      intro acc
      obtain ⟨pk, pv⟩ := p
      rcases hp with hk | ⟨s, hk, hv⟩
      · simp [toJsonDictLoop, hk]
      · simp [toJsonDictLoop, hk, hv]
  | cons q pre' ih =>
      intro acc
      obtain ⟨s, w, hs, hw⟩ := hpre q (by simp)
      obtain ⟨qk, qv⟩ := q
      have hrest := ih fun r hr => hpre r (by simp [hr])
      simp [toJsonDictLoop, hs, hw, hrest]

/-- C8: container recursion aborts eagerly on the first nested failure,
returning it unchanged, in the list, tuple and dict branches of the
encoder; and (host primitives being infallible in the model) the decoder
has no reachable failure at all, so every failure is returned as an
`Except` value by construction. -/
theorem claim_C8 :
    (∀ (pre : List PyObject) (x : PyObject) (post : List PyObject) (e : JsonError),
        (∀ y ∈ pre, ∃ v, to_json y = .ok v) → to_json x = .error e →
        to_json (PyObject.list (pre ++ x :: post)) = .error e) ∧
    (∀ (pre : List PyObject) (x : PyObject) (post : List PyObject) (e : JsonError),
        (∀ y ∈ pre, ∃ v, to_json y = .ok v) → to_json x = .error e →
        to_json (PyObject.tuple (pre ++ x :: post)) = .error e) ∧
    (∀ (pre : List (PyObject × PyObject)) (p : PyObject × PyObject)
        (post : List (PyObject × PyObject)) (e : JsonError),
        (∀ q ∈ pre, ∃ s w, coerceKey q.1 = .ok s ∧ to_json q.2 = .ok w) →
        (coerceKey p.1 = .error e ∨ (∃ s, coerceKey p.1 = .ok s ∧ to_json p.2 = .error e)) →
        to_json (PyObject.dict (pre ++ p :: post)) = .error e) ∧
    (∀ v : Value, ∃ o, from_json v = .ok o) := by
  refine ⟨?_, ?_, ?_, from_json_total⟩
  · intro pre x post e hpre hx
    have h := toJsonElems_error pre x post e hpre hx
    simp [to_json, h]
  · intro pre x post e hpre hx
    have h := toJsonElems_error pre x post e hpre hx
    simp [to_json, h]
  · intro pre p post e hpre hp
    have h := toJsonDictLoop_error pre p post e hpre hp []
    simp [to_json, h]

theorem claim_C8_witness :
    to_json (PyObject.list [PyObject.none, PyObject.other "A" Option.none (.ok "r"),
        PyObject.bool true]) = .error (.typeError "A" (.ok "r")) ∧
    to_json (PyObject.tuple [PyObject.other "A" Option.none (.ok "r")]) =
      .error (.typeError "A" (.ok "r")) ∧
    to_json (PyObject.dict [(PyObject.str "k", PyObject.str "v"),
        (PyObject.other "A" Option.none (.ok "r"), PyObject.str "z"),
        (PyObject.str "t", PyObject.str "u")]) =
      .error (.dictKeyNotString (PyObject.other "A" Option.none (.ok "r"))) ∧
    (∃ o, from_json Value.null = .ok o) := by
  refine ⟨?_, ?_, ?_, ?_⟩
  · exact claim_C8.1 [PyObject.none] (PyObject.other "A" Option.none (.ok "r"))
      [PyObject.bool true] (.typeError "A" (.ok "r"))
      (by rintro y hy
          simp only [List.mem_singleton] at hy
          subst hy
          exact ⟨Value.null, rfl⟩)
      rfl
  · exact claim_C8.2.1 [] (PyObject.other "A" Option.none (.ok "r")) [] (.typeError "A" (.ok "r"))
      (by rintro y hy; simp at hy) rfl
  · exact claim_C8.2.2.1 [(PyObject.str "k", PyObject.str "v")]
      (PyObject.other "A" Option.none (.ok "r"), PyObject.str "z")
      [(PyObject.str "t", PyObject.str "u")]
      (.dictKeyNotString (PyObject.other "A" Option.none (.ok "r")))
      (by rintro q hq
          simp only [List.mem_singleton] at hq
          subst hq
          exact ⟨"k", Value.str "v", rfl, rfl⟩)
      (Or.inl rfl)
  · exact claim_C8.2.2.2 Value.null

/-- Characterization of the dict-encoding loop when every key is of one
of the coercible kinds, every value encodes, and the coerced keys are
pairwise distinct. -/
theorem toJsonDictLoop_mem (items : List (PyObject × PyObject)) :
    ∀ acc : List (String × Value),
      (∀ p ∈ items, keyKindOk p.1 = true) →
      (∀ p ∈ items, ∃ w, to_json p.2 = .ok w) →
      (items.map fun p => coercedText p.1).Nodup →
      mapSorted acc →
      ∃ m, toJsonDictLoop items acc = .ok m ∧ mapSorted m ∧
        ∀ (s : String) (w : Value),
          ((s, w) ∈ m ↔
            ((s, w) ∈ acc ∧ s ∉ items.map fun p => coercedText p.1) ∨
            ∃ p ∈ items, coercedText p.1 = s ∧ to_json p.2 = .ok w) := by
  induction items with
  | nil =>
      intro acc _ _ _ hacc
      exact ⟨acc, rfl, hacc, by simp⟩
  | cons p rest ih =>
      intro acc hkeys hvals hnd hacc
      obtain ⟨w0, hw0⟩ := hvals p (List.mem_cons_self _ _)
      have hk0 : coerceKey p.1 = .ok (coercedText p.1) :=
        coerceKey_kindOk (hkeys p (List.mem_cons_self _ _))
      rw [List.map_cons, List.nodup_cons] at hnd
      obtain ⟨hs0notin, hndrest⟩ := hnd
      obtain ⟨m, hm, hmsort, hmem⟩ := ih (mapInsert (coercedText p.1) w0 acc)
        (fun q hq => hkeys q (List.mem_cons_of_mem _ hq))
        (fun q hq => hvals q (List.mem_cons_of_mem _ hq))
        hndrest
        (mapInsert_sorted hacc)
      refine ⟨m, ?_, hmsort, ?_⟩
      · obtain ⟨pk, pv⟩ := p
        simp only at hk0 hw0
        simp [toJsonDictLoop, hk0, hw0, hm]
      · intro s w
        rw [hmem s w]
        constructor
        · rintro (⟨hin, hnotin⟩ | ⟨q, hq, hqs, hqw⟩)
          · rcases (mapInsert_mem_iff hacc).mp hin with ⟨rfl, rfl⟩ | ⟨hinacc, hne⟩
            · exact Or.inr ⟨p, List.mem_cons_self _ _, rfl, hw0⟩
            · refine Or.inl ⟨hinacc, ?_⟩
              rw [List.map_cons, List.mem_cons]
              push_neg
              exact ⟨hne, hnotin⟩
          · exact Or.inr ⟨q, List.mem_cons_of_mem _ hq, hqs, hqw⟩
        · rintro (⟨hin, hnotin⟩ | ⟨q, hq, hqs, hqw⟩)
          · rw [List.map_cons, List.mem_cons] at hnotin
            push_neg at hnotin
            exact Or.inl ⟨(mapInsert_mem_iff hacc).mpr (Or.inr ⟨hin, hnotin.1⟩), hnotin.2⟩
          · rcases List.mem_cons.mp hq with rfl | hq'
            · have hw : w = w0 := Except.ok.inj (hqw.symm.trans hw0)
              subst hw
              refine Or.inl ⟨(mapInsert_mem_iff hacc).mpr (Or.inl ⟨hqs.symm, rfl⟩), ?_⟩
              rw [← hqs]
              exact hs0notin
            · exact Or.inr ⟨q, hq', hqs, hqw⟩

/-- C4: a mapping whose keys are all of the null, boolean or text kinds
(with encodable values and distinct coerced keys) encodes to an object
whose entries are exactly the coerced keys paired with the encodings of
the corresponding values: None coerces to "null", booleans to
"true"/"false", text keys keep their text. -/
theorem claim_C4 (items : List (PyObject × PyObject))
    (hkeys : ∀ p ∈ items, keyKindOk p.1 = true)
    (hvals : ∀ p ∈ items, ∃ w, to_json p.2 = .ok w)
    (hnd : (items.map fun p => coercedText p.1).Nodup) :
    ∃ m, to_json (PyObject.dict items) = .ok (Value.object m) ∧
      ∀ (s : String) (w : Value),
        ((s, w) ∈ m ↔ ∃ p ∈ items, coercedText p.1 = s ∧ to_json p.2 = .ok w) := by
  obtain ⟨m, hm, _, hmem⟩ := toJsonDictLoop_mem items [] hkeys hvals hnd
    (by simp [mapSorted])
  refine ⟨m, by simp [to_json, hm], fun s w => ?_⟩
  rw [hmem s w]
  simp

theorem valueListWf_iff : ∀ xs : List Value,
    valueListWf xs = true ↔ ∀ x ∈ xs, valueWf x = true := by
  intro xs
  induction xs with
  | nil => simp [valueListWf]
  | cons x rest ih => simp [valueListWf, Bool.and_eq_true, ih, List.forall_mem_cons]

theorem objWf_iff : ∀ m : List (String × Value),
    objWf m = true ↔
      (m.Pairwise fun a b => strLtB a.1 b.1 = true) ∧ ∀ p ∈ m, valueWf p.2 = true := by
  intro m
  induction m with
  | nil => simp [objWf]
  | cons q rest ih =>
      obtain ⟨k, v⟩ := q
      simp only [objWf, Bool.and_eq_true, keyLtAllB, List.all_eq_true, ih,
        List.pairwise_cons, List.mem_cons]
      constructor
      · rintro ⟨⟨hall, hv⟩, hpw, hvals⟩
        refine ⟨⟨hall, hpw⟩, ?_⟩
        rintro p (rfl | hp)
        · exact hv
        · exact hvals p hp
      · rintro ⟨⟨hall, hpw⟩, hvals⟩
        exact ⟨⟨hall, hvals _ (Or.inl rfl)⟩, hpw, fun p hp => hvals p (Or.inr hp)⟩

/-- Sorted keys are pairwise distinct. -/
theorem mapSorted_keys_nodup {m : List (String × Value)} (h : mapSorted m) :
    (m.map Prod.fst).Nodup := by
  have hpw : (m.map Prod.fst).Pairwise fun a b => strLtB a b = true :=
    List.pairwise_map.mpr h
  exact hpw.imp fun hab => strLtB_ne hab

/-- CPython dict insertion with a key unequal to every present key
appends the pair. -/
theorem dictSetItem_append :
    ∀ (d : List (PyObject × PyObject)) (k v : PyObject),
      (∀ q ∈ d, pyEqB k q.1 = false) → dictSetItem d k v = d ++ [(k, v)] := by
  intro d k v
  induction d with
  | nil => intro _; rfl
  | cons q rest ih =>
      intro h
      obtain ⟨qk, qv⟩ := q
      have hq : pyEqB k qk = false := h (qk, qv) (List.mem_cons_self _ _)
      simp only [dictSetItem]
      rw [if_neg (by simp [hq])]
      rw [ih fun r hr => h r (List.mem_cons_of_mem _ hr)]
      simp

/-- Decoding an object whose values all decode and whose keys are
pairwise distinct appends, one by one, the decoded pairs to the dict. -/
theorem fromJsonObjLoop_append :
    ∀ (m : List (String × Value)) (d : List (PyObject × PyObject)),
      (∀ p ∈ m, ∃ o, from_json p.2 = .ok o) →
      (∀ p ∈ m, ∀ q ∈ d, pyEqB (PyObject.str p.1) q.1 = false) →
      (m.map Prod.fst).Nodup →
      ∃ e, fromJsonObjLoop m d = .ok (d ++ e) ∧
        List.Forall₂ (fun (p : PyObject × PyObject) (q : String × Value) =>
          p.1 = PyObject.str q.1 ∧ from_json q.2 = .ok p.2) e m := by
  intro m
  induction m with
  | nil =>
      intro d _ _ _
      exact ⟨[], by simp [fromJsonObjLoop], List.Forall₂.nil⟩
  | cons p rest ih =>
      intro d hdec hfresh hnd
      obtain ⟨k, v⟩ := p
      obtain ⟨o, ho⟩ := hdec (k, v) (List.mem_cons_self _ _)
      rw [List.map_cons, List.nodup_cons] at hnd
      obtain ⟨hknotin, hndrest⟩ := hnd
      have hset : dictSetItem d (PyObject.str k) o = d ++ [(PyObject.str k, o)] :=
        dictSetItem_append d _ o (hfresh (k, v) (List.mem_cons_self _ _))
      have hfresh' : ∀ p' ∈ rest, ∀ q ∈ d ++ [(PyObject.str k, o)],
          pyEqB (PyObject.str p'.1) q.1 = false := by
        intro p' hp' q hq
        rcases List.mem_append.mp hq with hqd | hqs
        · exact hfresh p' (List.mem_cons_of_mem _ hp') q hqd
        · rw [List.mem_singleton] at hqs
          subst hqs
          have hne : p'.1 ≠ k := by
            intro he
            exact hknotin (List.mem_map.mpr ⟨p', hp', he⟩)
          simp [pyEqB, hne]
      obtain ⟨e, he, hf⟩ := ih (d ++ [(PyObject.str k, o)])
        (fun p' hp' => hdec p' (List.mem_cons_of_mem _ hp')) hfresh' hndrest
      refine ⟨(PyObject.str k, o) :: e, ?_, List.Forall₂.cons ⟨rfl, ho⟩ hf⟩
      simp only [fromJsonObjLoop, ho, except_bind_ok, hset, he]
      simp

/-- Turn the decode-side pairing into the encode-side pairing, given that
every value of the map round-trips. -/
theorem forall2_decode_to_encode :
    ∀ {e : List (PyObject × PyObject)} {m : List (String × Value)},
      List.Forall₂ (fun (p : PyObject × PyObject) (q : String × Value) =>
        p.1 = PyObject.str q.1 ∧ from_json q.2 = .ok p.2) e m →
      (∀ q ∈ m, ∃ o, from_json q.2 = .ok o ∧ to_json o = .ok q.2) →
      List.Forall₂ (fun (p : PyObject × PyObject) (q : String × Value) =>
        p.1 = PyObject.str q.1 ∧ to_json p.2 = .ok q.2) e m := by
  intro e m hf
  induction hf with
  | nil => intro _; exact List.Forall₂.nil
  | @cons p q e' m' hpq hrest ih =>
      intro hih
      obtain ⟨o, ho1, ho2⟩ := hih q (List.mem_cons_self _ _)
      have ho : o = p.2 := Except.ok.inj (ho1.symm.trans hpq.2)
      exact List.Forall₂.cons ⟨hpq.1, ho ▸ ho2⟩ (ih fun r hr => hih r (List.mem_cons_of_mem _ hr))

/-- Encoding a dict of string-keyed pairs whose values encode back to a
sorted map reproduces exactly that map, appended after the
accumulator. -/
theorem toJsonDictLoop_sorted_append :
    ∀ {ps : List (PyObject × PyObject)} {m : List (String × Value)},
      List.Forall₂ (fun (p : PyObject × PyObject) (q : String × Value) =>
        p.1 = PyObject.str q.1 ∧ to_json p.2 = .ok q.2) ps m →
      ∀ acc : List (String × Value),
        ((acc ++ m).Pairwise fun a b => strLtB a.1 b.1 = true) →
        toJsonDictLoop ps acc = .ok (acc ++ m) := by
  intro ps m hf
  induction hf with
  | nil => intro acc _; simp [toJsonDictLoop]
  | @cons p q ps' m' hpq hrest ih =>
      intro acc hsort
      obtain ⟨pk, pv⟩ := p
      obtain ⟨qk, qv⟩ := q
      obtain ⟨hk, hv⟩ := hpq
      simp only at hk hv
      subst hk
      have hacclt : ∀ r ∈ acc, strLtB r.1 qk = true := by
        intro r hr
        exact (List.pairwise_append.mp hsort).2.2 r hr (qk, qv) (List.mem_cons_self _ _)
      have hins : mapInsert qk qv acc = acc ++ [(qk, qv)] := mapInsert_append qk qv acc hacclt
      have hsort' : ((acc ++ [(qk, qv)]) ++ m').Pairwise fun a b => strLtB a.1 b.1 = true := by
        rw [List.append_assoc, List.singleton_append]
        exact hsort
      have hrec := ih (acc ++ [(qk, qv)]) hsort'
      have hcoerce : coerceKey (PyObject.str qk) = .ok qk := rfl
      simp only [toJsonDictLoop, hcoerce, hv, except_bind_ok, hins, hrec]
      simp

/-- Pointwise round-trip of a list of elements lifts to the two element
loops. -/
theorem roundtrip_elems (xs : List Value)
    (ih : ∀ x ∈ xs, ∃ o, from_json x = .ok o ∧ to_json o = .ok x) :
    ∃ os, fromJsonElems xs = .ok os ∧ toJsonElems os = .ok xs := by
  induction xs with
  | nil => exact ⟨[], rfl, rfl⟩
  | cons x rest ihr =>
      obtain ⟨o, ho1, ho2⟩ := ih x (List.mem_cons_self _ _)
      obtain ⟨os, h1, h2⟩ := ihr fun y hy => ih y (List.mem_cons_of_mem _ hy)
      exact ⟨o :: os, by simp [fromJsonElems, ho1, h1], by simp [toJsonElems, ho2, h2]⟩

/-- The outcome of the scalar dispatch chain when the unsigned-integer
extraction is the first to succeed. -/
theorem toJsonScalar_u64 (obj : PyObject) (hs : extractString obj = Option.none)
    (hb : extractBool obj = Option.none) (hf : castFloat obj = Option.none)
    {u : Nat} (hu : extractU64 obj = some u) :
    toJsonScalar obj = .ok (Value.number (JNumber.posInt u)) := by
  simp [toJsonScalar, hs, hb, hf, hu]

/-- The outcome of the scalar dispatch chain when the signed-integer
extraction is the first to succeed. -/
theorem toJsonScalar_i64 (obj : PyObject) (hs : extractString obj = Option.none)
    (hb : extractBool obj = Option.none) (hf : castFloat obj = Option.none)
    (hu : extractU64 obj = Option.none) {i : Int} (hi : extractI64 obj = some i) :
    toJsonScalar obj = .ok (Value.number (numberFromI64 i)) := by
  simp [toJsonScalar, hs, hb, hf, hu, hi]

/-- Encoding a native integer in the unsigned 64-bit range. -/
theorem to_json_int_u64 (n : Nat) (hn : (n : Int) < 18446744073709551616) :
    to_json (PyObject.int (n : Int)) = .ok (Value.number (JNumber.posInt n)) := by
  have hu : extractU64 (PyObject.int (n : Int)) = some n := by
    simp only [extractU64]
    rw [if_pos ⟨Int.natCast_nonneg n, hn⟩, Int.toNat_natCast]
  rw [to_json_int_eq]
  exact toJsonScalar_u64 (PyObject.int (n : Int)) rfl rfl rfl hu

/-- Encoding a negative native integer in the signed 64-bit range. -/
theorem to_json_int_i64 (m : Int) (h1 : -9223372036854775808 ≤ m) (h2 : m < 0) :
    to_json (PyObject.int m) = .ok (Value.number (JNumber.negInt m)) := by
  have hu : extractU64 (PyObject.int m) = Option.none := by
    simp only [extractU64]
    rw [if_neg (by omega)]
  have hi : extractI64 (PyObject.int m) = some m := by
    simp only [extractI64]
    rw [if_pos ⟨h1, by omega⟩]
  rw [to_json_int_eq, toJsonScalar_i64 (PyObject.int m) rfl rfl rfl hu hi]
  simp only [numberFromI64]
  rw [if_pos h2]

/-- Encoding a native float: the finite/non-finite dichotomy. -/
theorem to_json_float_cases (f : F64) :
    to_json (PyObject.float f) =
      if f.isFinite = true then .ok (Value.number (JNumber.float f))
      else .error JsonError.invalidFloat := by
  rw [to_json_float_eq]
  cases hf : f.isFinite <;>
    simp [toJsonScalar, extractString, extractBool, castFloat, numberFromF64, hf]

/-- The round trip: a well-formed JSON value decodes to a Python object
that encodes back to the very same value. -/
theorem roundtrip_ok (v : Value) (h : valueWf v = true) :
    ∃ o, from_json v = .ok o ∧ to_json o = .ok v := by
  match v with
  | .null => exact ⟨PyObject.none, rfl, rfl⟩
  | .bool b => exact ⟨PyObject.bool b, rfl, by cases b <;> rfl⟩
  | .str s => exact ⟨PyObject.str s, rfl, rfl⟩
  | .number (.posInt n) =>
      refine ⟨PyObject.int (n : Int), rfl, ?_⟩
      have hn : (n : Int) < 18446744073709551616 := by
        simp only [valueWf, decide_eq_true_eq] at h
        exact_mod_cast h
      exact to_json_int_u64 n hn
  | .number (.negInt m) =>
      have hb : -9223372036854775808 ≤ m ∧ m < 0 := by
        simp only [valueWf, decide_eq_true_eq] at h
        exact h
      exact ⟨PyObject.int m, rfl, to_json_int_i64 m hb.1 hb.2⟩
  | .number (.float f) =>
      have hf : f.isFinite = true := by simpa [valueWf] using h
      refine ⟨PyObject.float f, rfl, ?_⟩
      rw [to_json_float_cases, if_pos hf]
  | .array xs =>
      have hwf : ∀ x ∈ xs, valueWf x = true :=
        (valueListWf_iff xs).mp (by simpa [valueWf] using h)
      obtain ⟨os, h1, h2⟩ := roundtrip_elems xs fun x hx => roundtrip_ok x (hwf x hx)
      exact ⟨PyObject.list os, by simp [from_json, h1], by simp [to_json, h2]⟩
  | .object mm =>
      obtain ⟨hsort, hvals⟩ := (objWf_iff mm).mp (by simpa [valueWf] using h)
      have hnd : (mm.map Prod.fst).Nodup := mapSorted_keys_nodup hsort
      have ihm : ∀ p ∈ mm, ∃ o, from_json p.2 = .ok o ∧ to_json o = .ok p.2 :=
        fun p hp => roundtrip_ok p.2 (hvals p hp)
      obtain ⟨e, hd, hf⟩ := fromJsonObjLoop_append mm []
        (fun p hp => (ihm p hp).elim fun o ho => ⟨o, ho.1⟩)
        (fun p hp q hq => absurd hq (List.not_mem_nil q))
        hnd
      rw [List.nil_append] at hd
      have hf' := forall2_decode_to_encode hf ihm
      have henc := toJsonDictLoop_sorted_append hf' [] (by simpa using hsort)
      rw [List.nil_append] at henc
      exact ⟨PyObject.dict e, by simp [from_json, hd], by simp [to_json, henc]⟩
termination_by sizeOf v
decreasing_by
  · have := List.sizeOf_lt_of_mem hx
    simp only [Value.array.sizeOf_spec]
    omega
  · have h1 := List.sizeOf_lt_of_mem hp
    have h2 : sizeOf p.2 < sizeOf p := by
      cases p with
      | mk a b => simp
    simp only [Value.object.sizeOf_spec]
    omega

/-- C1: decoding a well-formed JSON value (finite floats, range-respecting
numbers, sorted object maps — the representation invariants of
`serde_json`) and re-encoding the result yields a structurally equal JSON
value. -/
theorem claim_C1 (v : Value) (h : valueWf v = true) :
    ∃ o, from_json v = .ok o ∧ to_json o = .ok v := roundtrip_ok v h

theorem claim_C1_witness :
    valueWf (Value.object [("a", Value.number (JNumber.negInt (-3))),
      ("b", Value.array [Value.null, Value.bool true,
        Value.number (JNumber.float ⟨true, 7⟩), Value.str "x"]),
      ("c", Value.number (JNumber.posInt 5))]) = true ∧
    ∃ o, from_json (Value.object [("a", Value.number (JNumber.negInt (-3))),
        ("b", Value.array [Value.null, Value.bool true,
          Value.number (JNumber.float ⟨true, 7⟩), Value.str "x"]),
        ("c", Value.number (JNumber.posInt 5))]) = .ok o ∧
      to_json o = .ok (Value.object [("a", Value.number (JNumber.negInt (-3))),
        ("b", Value.array [Value.null, Value.bool true,
          Value.number (JNumber.float ⟨true, 7⟩), Value.str "x"]),
        ("c", Value.number (JNumber.posInt 5))]) :=
  ⟨by decide, claim_C1 _ (by decide)⟩

theorem floatsFiniteList_iff : ∀ vs : List Value,
    floatsFiniteList vs = true ↔ ∀ v ∈ vs, floatsFinite v = true := by
  intro vs
  induction vs with
  | nil => simp [floatsFiniteList]
  | cons v rest ih => simp [floatsFiniteList, Bool.and_eq_true, ih, List.forall_mem_cons]

theorem floatsFiniteObj_iff : ∀ m : List (String × Value),
    floatsFiniteObj m = true ↔ ∀ p ∈ m, floatsFinite p.2 = true := by
  intro m
  induction m with
  | nil => simp [floatsFiniteObj]
  | cons q rest ih =>
      obtain ⟨k, v⟩ := q
      simp [floatsFiniteObj, Bool.and_eq_true, ih, List.forall_mem_cons]

/-- The outcome of the scalar dispatch chain when the float cast succeeds
on a finite float. -/
theorem toJsonScalar_float_ok (obj : PyObject) (hs : extractString obj = Option.none)
    (hb : extractBool obj = Option.none) {f : F64} (hf : castFloat obj = some f)
    {jn : JNumber} (hn : numberFromF64 f = some jn) :
    toJsonScalar obj = .ok (Value.number jn) := by
  simp [toJsonScalar, hs, hb, hf, hn]

/-- The outcome of the scalar dispatch chain when the float cast succeeds
on a non-finite float. -/
theorem toJsonScalar_float_err (obj : PyObject) (hs : extractString obj = Option.none)
    (hb : extractBool obj = Option.none) {f : F64} (hf : castFloat obj = some f)
    (hn : numberFromF64 f = Option.none) :
    toJsonScalar obj = .error JsonError.invalidFloat := by
  simp [toJsonScalar, hs, hb, hf, hn]

/-- The outcome of the scalar dispatch chain when every attempt fails and
the object is not the None singleton. -/
theorem toJsonScalar_fallthrough (obj : PyObject) (hs : extractString obj = Option.none)
    (hb : extractBool obj = Option.none) (hf : castFloat obj = Option.none)
    (hu : extractU64 obj = Option.none) (hi : extractI64 obj = Option.none)
    (hn : isNone obj = false) :
    toJsonScalar obj = .error (.typeError (typeName obj) (pyRepr obj)) := by
  simp [toJsonScalar, hs, hb, hf, hu, hi, hn]

/-- Whatever the scalar chain emits has only finite float numbers. -/
theorem toJsonScalar_floats (obj : PyObject) (v : Value) (h : toJsonScalar obj = .ok v) :
    floatsFinite v = true := by
  cases obj with
  | none =>
      rw [show toJsonScalar PyObject.none = .ok Value.null from rfl] at h
      injection h with h
      subst h
      rfl
  | bool b =>
      rw [show toJsonScalar (PyObject.bool b) = .ok (Value.bool b) from rfl] at h
      injection h with h
      subst h
      rfl
  | str s =>
      rw [show toJsonScalar (PyObject.str s) = .ok (Value.str s) from rfl] at h
      injection h with h
      subst h
      rfl
  | int n =>
      cases hu : extractU64 (PyObject.int n) with
      | some u =>
          rw [toJsonScalar_u64 (PyObject.int n) rfl rfl rfl hu] at h
          injection h with h
          subst h
          rfl
      | none =>
          cases hi : extractI64 (PyObject.int n) with
          | some i =>
              rw [toJsonScalar_i64 (PyObject.int n) rfl rfl rfl hu hi] at h
              injection h with h
              subst h
              simp only [numberFromI64]
              by_cases hi0 : i < 0
              · rw [if_pos hi0]
                rfl
              · rw [if_neg hi0]
                rfl
          | none =>
              rw [toJsonScalar_fallthrough (PyObject.int n) rfl rfl rfl hu hi rfl] at h
              exact Except.noConfusion h
  | float f =>
      cases hff : f.isFinite with
      | false =>
          rw [toJsonScalar_float_err (PyObject.float f) rfl rfl rfl
            (by simp [numberFromF64, hff])] at h
          exact Except.noConfusion h
      | true =>
          rw [toJsonScalar_float_ok (PyObject.float f) rfl rfl rfl
            (show numberFromF64 f = some (JNumber.float f) by simp [numberFromF64, hff])] at h
          injection h with h
          subst h
          exact hff
  | list xs =>
      rw [show toJsonScalar (PyObject.list xs) =
        .error (.typeError "list" (.ok "<list>")) from rfl] at h
      exact Except.noConfusion h
  | tuple xs =>
      rw [show toJsonScalar (PyObject.tuple xs) =
        .error (.typeError "tuple" (.ok "<tuple>")) from rfl] at h
      exact Except.noConfusion h
  | dict items =>
      rw [show toJsonScalar (PyObject.dict items) =
        .error (.typeError "dict" (.ok "<dict>")) from rfl] at h
      exact Except.noConfusion h
  | other tn sr r =>
      rw [show toJsonScalar (PyObject.other tn sr r) = .error (.typeError tn r) from rfl] at h
      exact Except.noConfusion h

/-- The element loop only emits lists whose elements have finite
floats (given the elements do). -/
theorem toJsonElems_floats : ∀ (xs : List PyObject) (vs : List Value),
    (∀ x ∈ xs, ∀ w, to_json x = .ok w → floatsFinite w = true) →
    toJsonElems xs = .ok vs → ∀ w ∈ vs, floatsFinite w = true := by
  intro xs
  induction xs with
  | nil =>
      intro vs _ h w hw
      simp only [toJsonElems] at h
      injection h with h
      subst h
      cases hw
  | cons x rest ih =>
      intro vs hih h
      cases hx : to_json x with
      | error e =>
          simp only [toJsonElems, hx, except_bind_error] at h
          exact Except.noConfusion h
      | ok w =>
          cases hrest : toJsonElems rest with
          | error e =>
              simp only [toJsonElems, hx, hrest, except_bind_ok, except_bind_error] at h
              exact Except.noConfusion h
          | ok ws =>
              simp only [toJsonElems, hx, hrest, except_bind_ok, except_pure_eq_ok] at h
              injection h with h
              subst h
              intro z hz
              rcases List.mem_cons.mp hz with rfl | hz'
              · exact hih x (List.mem_cons_self _ _) z hx
              · exact ih ws (fun y hy => hih y (List.mem_cons_of_mem _ hy)) hrest z hz'

/-- The dict loop only emits maps whose values have finite floats (given
the entry values and the accumulator do). -/
theorem toJsonDictLoop_floats :
    ∀ (items : List (PyObject × PyObject)) (acc m : List (String × Value)),
      (∀ p ∈ items, ∀ w, to_json p.2 = .ok w → floatsFinite w = true) →
      (∀ p ∈ acc, floatsFinite p.2 = true) →
      toJsonDictLoop items acc = .ok m → ∀ p ∈ m, floatsFinite p.2 = true := by
  intro items
  induction items with
  | nil =>
      intro acc m _ hacc h
      simp only [toJsonDictLoop] at h
      injection h with h
      subst h
      exact hacc
  | cons q rest ih =>
      intro acc m hih hacc h
      obtain ⟨qk, qv⟩ := q
      cases hk : coerceKey qk with
      | error e =>
          simp only [toJsonDictLoop, hk, except_bind_error] at h
          exact Except.noConfusion h
      | ok s =>
          cases hv : to_json qv with
          | error e =>
              simp only [toJsonDictLoop, hk, hv, except_bind_ok, except_bind_error] at h
              exact Except.noConfusion h
          | ok w =>
              simp only [toJsonDictLoop, hk, hv, except_bind_ok] at h
              refine ih (mapInsert s w acc) m
                (fun p hp => hih p (List.mem_cons_of_mem _ hp)) ?_ h
              intro p hp
              rcases mapInsert_mem_sub hp with rfl | hpacc
              · exact hih (qk, qv) (List.mem_cons_self _ _) w hv
              · exact hacc p hpacc

/-- Every value the encoder emits has only finite float numbers. -/
theorem to_json_floatsFinite (obj : PyObject) (v : Value) (h : to_json obj = .ok v) :
    floatsFinite v = true := by
  match obj with
  | .list xs =>
      cases hxs : toJsonElems xs with
      | error e =>
          simp only [to_json, hxs, except_bind_error] at h
          exact Except.noConfusion h
      | ok vs =>
          simp only [to_json, hxs, except_bind_ok, except_pure_eq_ok] at h
          injection h with h
          subst h
          have hvs := toJsonElems_floats xs vs
            (fun x hx w hw => to_json_floatsFinite x w hw) hxs
          show floatsFiniteList vs = true
          exact (floatsFiniteList_iff vs).mpr hvs
  | .tuple xs =>
      cases hxs : toJsonElems xs with
      | error e =>
          simp only [to_json, hxs, except_bind_error] at h
          exact Except.noConfusion h
      | ok vs =>
          simp only [to_json, hxs, except_bind_ok, except_pure_eq_ok] at h
          injection h with h
          subst h
          have hvs := toJsonElems_floats xs vs
            (fun x hx w hw => to_json_floatsFinite x w hw) hxs
          show floatsFiniteList vs = true
          exact (floatsFiniteList_iff vs).mpr hvs
  | .dict items =>
      cases hd : toJsonDictLoop items [] with
      | error e =>
          simp only [to_json, hd, except_bind_error] at h
          exact Except.noConfusion h
      | ok m =>
          simp only [to_json, hd, except_bind_ok, except_pure_eq_ok] at h
          injection h with h
          subst h
          have hm := toJsonDictLoop_floats items [] m
            (fun p hp w hw => to_json_floatsFinite p.2 w hw)
            (fun p hp => absurd hp (List.not_mem_nil p)) hd
          show floatsFiniteObj m = true
          exact (floatsFiniteObj_iff m).mpr hm
  | .none => exact toJsonScalar_floats PyObject.none v h
  | .bool b => exact toJsonScalar_floats (PyObject.bool b) v h
  | .int n => exact toJsonScalar_floats (PyObject.int n) v h
  | .float f => exact toJsonScalar_floats (PyObject.float f) v h
  | .str s => exact toJsonScalar_floats (PyObject.str s) v h
  | .other tn sr r => exact toJsonScalar_floats (PyObject.other tn sr r) v h
termination_by sizeOf obj
decreasing_by
  · have := List.sizeOf_lt_of_mem hx
    simp only [PyObject.list.sizeOf_spec]
    omega
  · have := List.sizeOf_lt_of_mem hx
    simp only [PyObject.tuple.sizeOf_spec]
    omega
  · have h1 := List.sizeOf_lt_of_mem hp
    have h2 : sizeOf p.2 < sizeOf p := by
      cases p with
      | mk a b => simp
    simp only [PyObject.dict.sizeOf_spec]
    omega

/-- C5: a finite native float encodes to the float-subkind number holding
it, a non-finite one fails with InvalidFloat; consequently every number
the encoder ever emits holds only finite floats. -/
theorem claim_C5 :
    (∀ f : F64, to_json (PyObject.float f) =
        if f.isFinite = true then .ok (Value.number (JNumber.float f))
        else .error JsonError.invalidFloat) ∧
    (∀ (obj : PyObject) (v : Value), to_json obj = .ok v → floatsFinite v = true) :=
  ⟨to_json_float_cases, to_json_floatsFinite⟩

theorem claim_C5_witness :
    to_json (PyObject.bool true) = .ok (Value.bool true) ∧
    floatsFinite (Value.bool true) = true :=
  ⟨rfl, claim_C5.2 (PyObject.bool true) (Value.bool true) rfl⟩

theorem claim_C4_witness :
    ∃ m, to_json (PyObject.dict [(PyObject.none, PyObject.int 5),
            (PyObject.bool true, PyObject.int 6)]) = .ok (Value.object m) ∧
      ∀ (s : String) (w : Value),
        ((s, w) ∈ m ↔ ∃ p ∈ [(PyObject.none, PyObject.int 5),
            (PyObject.bool true, PyObject.int 6)],
          coercedText p.1 = s ∧ to_json p.2 = .ok w) := by
  apply claim_C4
  · decide
  · rintro p hp
    simp only [List.mem_cons, List.mem_singleton] at hp
    rcases hp with rfl | rfl | h
    · exact ⟨Value.number (JNumber.posInt 5), rfl⟩
    · exact ⟨Value.number (JNumber.posInt 6), rfl⟩
    · exact absurd h (List.not_mem_nil p)
  · decide

end CpythonJson
